import Mathlib

/-!
Verification of the `logtee` header-only C99 logging library (`src/logtee.h`).

The development is a shallow embedding of the library's process-wide state
(`_fplist`, `_loglevels`, `_numlevels`, `_prefix_callback`, the static
`logline` buffer, the `atexit` registration) and of its operations
(`LOG`, `LOG_reset`, `LOG_teefile`, `LOG_teepath`, `LOG_addlevel`,
`LOG_prefixcallback`, `_LOG_cleanup`), followed by theorems about the
documented behavior.

Modelling conventions:
* `FILE *` handles are the inductive `Handle`; `fileno` mirrors the POSIX
  descriptor numbers (stdin 0, stdout 1, stderr 2, opened files >= 3).
* `printf`-style formatting is abstracted: a call carries the already
  formatted message string, and `vsnprintf`'s bound is modelled by
  truncation to `LINE_MAX - 1` characters.  The output record carries a
  `formatted` flag telling whether the `vsnprintf` step was reached at all
  (format-argument evaluation happens only then).
* Allocation (`malloc`/`realloc`) outcomes are supplied by explicit `Bool`
  oracle parameters (`true` = allocation succeeds).  A single flag covers
  the allocations performed by one call.
* Observable effects of one call are collected in `LogOut`: the writes to
  sinks (tagged with the slot index they went to), the diagnostics printed
  directly on the process's stderr by the `malloc_fail` paths, whether
  formatting ran, and how many times the line-prefix callback was invoked.
* The callback `_prefix_callback` is modelled as an optional function from
  the invocation count to a string, since its result need not be stable
  across invocations.
* Undefined behavior (dereferencing a NULL `FILE *`) is modelled by
  returning `none`.
-/

namespace Logtee

/-- A `FILE *` value that can sit in a sink slot. -/
inductive Handle where
  | stdinH : Handle
  | stdoutH : Handle
  | stderrH : Handle
  | fileH : Nat → Handle
deriving DecidableEq, Repr

/-- POSIX file descriptor of a handle, as `fileno` returns it. -/
def fileno : Handle → Nat
  | .stdinH => 0
  | .stdoutH => 1
  | .stderrH => 2
  | .fileH id => id + 3

def STDIN_FILENO : Nat := 0
def STDOUT_FILENO : Nat := 1
def STDERR_FILENO : Nat := 2

/-- One node of the `_l_fplist` sink list: a `FILE *` (possibly NULL) and a
minimum-priority threshold. -/
structure Slot where
  fp : Option Handle
  level : Int
deriving DecidableEq, Repr

/-- One `_l_loglevel` registry entry; `pfx` models the C member `prefix`
(which is not a usable Lean identifier). -/
structure LogLevel where
  level : Int
  pfx : String
deriving DecidableEq, Repr

/-- `_builtin_levels`: Debug, Info, Warning, Error, Fatal. -/
def builtinLevels : List LogLevel :=
  [⟨-1, "(DD): "⟩, ⟨0, "(II): "⟩, ⟨1, "(WW): "⟩, ⟨2, "(EE): "⟩, ⟨3, "(FF): "⟩]

def LINE_MAX : Nat := 2048

def EXIT_FAILURE : Nat := 1

/-- The process-wide mutable state of the library.

* `fplist` models the `_fplist` chain; the statically embedded head node is
  the first element, so on every reachable state the list is nonempty.
* `loglevels`/`numlevels` model the `_loglevels` array and `_numlevels`
  counter.  `loglevels = none` is the NULL pointer; when it is `some l`,
  `l` lists the array cells in order.
* `pfxCallback` models `_prefix_callback` (argument = invocation count).
* `logline` records whether the static line buffer has been allocated.
* `cleanupRegistered` records whether `atexit(_LOG_cleanup)` has run. -/
structure State where
  fplist : List Slot
  loglevels : Option (List LogLevel)
  numlevels : Nat
  pfxCallback : Option (Nat → String)
  logline : Bool
  cleanupRegistered : Bool

/-- The state at program start, before any call into the library. -/
def initState : State :=
  { fplist := [⟨none, 0⟩]
    loglevels := none
    numlevels := 0
    pfxCallback := none
    logline := false
    cleanupRegistered := false }

/-- One `fprintf` to a sink: the slot index it targeted, the handle, and
the exact bytes written. -/
structure Write where
  idx : Nat
  dest : Handle
  line : String
deriving DecidableEq, Repr

/-- Observable effects of one library call. -/
structure LogOut where
  writes : List Write
  fallback : List String
  formatted : Bool
  cbCalls : Nat
deriving Repr

def LogOut.empty : LogOut := ⟨[], [], false, 0⟩

/-- Sequencing of the effects of two consecutive calls. -/
def seqOut (a b : LogOut) : LogOut :=
  ⟨a.writes ++ b.writes, a.fallback ++ b.fallback,
   a.formatted || b.formatted, a.cbCalls + b.cbCalls⟩

/-- The diagnostic printed on stderr by the `malloc_fail` label in `LOG`. -/
def mallocFailMsg : String := "LOG: malloc"

/-- `_fplist.fp`, the head slot's handle (the dispatcher's early-exit gate). -/
def headFp (s : State) : Option Handle :=
  match s.fplist with
  | [] => none
  | sl :: _ => sl.fp

/-- `vsnprintf(logline, LINE_MAX, ...)`: the formatted message, silently
truncated to the buffer bound. -/
def truncMsg (msg : String) : String := msg.take (LINE_MAX - 1)

/-- The level-determination loop of `LOG`: `llev` keeps being overwritten by
every matching entry, so the last match survives. -/
def scanLast (level : Int) : List LogLevel → Option LogLevel → Option LogLevel
  | [], acc => acc
  | e :: rest, acc => scanLast level rest (if e.level = level then some e else acc)

/-- `for (i=0; _loglevels != NULL && i < _numlevels; ++i) ...` over the
registry, returning the surviving `llev`. -/
def lookupLevel (s : State) (level : Int) : Option LogLevel :=
  match s.loglevels with
  | none => none
  | some l => scanLast level (l.take s.numlevels) none

/-- `llev ? llev->prefix : ""`. -/
def renderPfx : Option LogLevel → String
  | none => ""
  | some e => e.pfx

/-- `_prefix_callback ? _prefix_callback() : ""` at invocation number `n`. -/
def cbString (cb : Option (Nat → String)) (n : Nat) : String :=
  match cb with
  | none => ""
  | some f => f n

/-- Successor of the callback-invocation counter after one eligible write:
the callback runs (and the counter advances) only when it is set. -/
def cbBump (cb : Option (Nat → String)) (n : Nat) : Nat :=
  match cb with
  | none => n
  | some _ => n + 1

/-- The sink loop of `LOG`: skip NULL slots and slots whose threshold
exceeds the level, otherwise `fprintf` the composed line (invoking the
callback, when set, once per such write) and flush.  `i` is the slot index,
`n` the callback-invocation counter; the second component is the final
counter. -/
def dispatch (cb : Option (Nat → String)) (lp line : String) (level : Int) :
    List Slot → Nat → Nat → List Write × Nat
  | [], _, n => ([], n)
  | sl :: rest, i, n =>
    match sl.fp with
    | none => dispatch cb lp line level rest (i + 1) n
    | some h =>
      if level < sl.level then dispatch cb lp line level rest (i + 1) n
      else
        ((⟨i, h, cbString cb n ++ lp ++ line⟩ : Write) ::
            (dispatch cb lp line level rest (i + 1) (cbBump cb n)).1,
         (dispatch cb lp line level rest (i + 1) (cbBump cb n)).2)

/-- Number of slots the sink loop actually writes to at a given level. -/
def countElig (level : Int) : List Slot → Nat
  | [] => 0
  | sl :: rest =>
    match sl.fp with
    | none => countElig level rest
    | some _ => if level < sl.level then countElig level rest else countElig level rest + 1

/-- The body of `LOG` after the lazy registry initialization: line-buffer
allocation, the zero-target early exit, formatting, level lookup, and the
sink loop. -/
def LOGbody (allocOk : Bool) (level : Int) (msg : String) (s : State) : State × LogOut :=
  if !s.logline && !allocOk then
    (s, ⟨[], [mallocFailMsg], false, 0⟩)
  else
    let s1 : State := { s with logline := true }
    if headFp s1 = none then
      (s1, ⟨[], [], false, 0⟩)
    else
      let line := truncMsg msg
      let lp := renderPfx (lookupLevel s1 level)
      let d := dispatch s1.pfxCallback lp line level s1.fplist 0 0
      (s1, ⟨d.1, [], true, d.2⟩)

/-- `LOG(level, fmt, ...)` with the formatted message supplied as `msg`.
On the very first call (`_loglevels == NULL`) it registers the exit hook
and seeds the registry with the builtin table (`goto malloc_fail` when the
allocation fails). -/
def LOG (allocOk : Bool) (level : Int) (msg : String) (s : State) : State × LogOut :=
  match s.loglevels with
  | some _ => LOGbody allocOk level msg s
  | none =>
    let s1 : State := { s with cleanupRegistered := true }
    if allocOk then
      LOGbody allocOk level msg
        { s1 with loglevels := some builtinLevels, numlevels := 5 }
    else
      (s1, ⟨[], [mallocFailMsg], false, 0⟩)

/-- Result of a caller-visible logging statement: the new state, the
observable output, and `some code` when the statement terminates the
process with exit status `code`. -/
structure CallResult where
  state : State
  out : LogOut
  exited : Option Nat

/-- A direct call to `LOG` (or to the `LOGD`/`LOGI`/`LOGW`/`LOGE` wrappers,
which only fix `level`): the function returns normally, whatever the level. -/
def LOG_call (allocOk : Bool) (level : Int) (msg : String) (s : State) : CallResult :=
  let r := LOG allocOk level msg s
  ⟨r.1, r.2, none⟩

/-- `LOGF(fmt, ...)`: `(void)(LOG(3, ...), exit(EXIT_FAILURE))`. -/
def LOGF_call (allocOk : Bool) (msg : String) (s : State) : CallResult :=
  let r := LOG allocOk 3 msg s
  ⟨r.1, r.2, some EXIT_FAILURE⟩

/-- `_LOG_cleanup`, the `atexit` hook: the handles it `fclose`s.  Note the
guard exempts the descriptors of stdin and stderr (not stdout). -/
def LOG_cleanup (s : State) : List Handle :=
  s.fplist.filterMap fun sl =>
    match sl.fp with
    | none => none
    | some h =>
      if fileno h ≠ STDIN_FILENO ∧ fileno h ≠ STDERR_FILENO then some h else none

/-- The slot loop of `LOG_reset`: every slot has `fileno(fp->fp)` taken
(without a NULL check, hence `none` = undefined behavior on an empty slot),
non-stdout/stderr handles are `fclose`d, and the slot is cleared.  Returns
the cleared slots and the closed handles. -/
def resetSlots : List Slot → Option (List Slot × List Handle)
  | [] => some ([], [])
  | sl :: rest =>
    match sl.fp with
    | none => none
    | some h =>
      match resetSlots rest with
      | none => none
      | some p =>
        let closedHere := if fileno h ≠ STDOUT_FILENO ∧ fileno h ≠ STDERR_FILENO then [h] else []
        some (⟨none, 0⟩ :: p.1, closedHere ++ p.2)

/-- `LOG_reset()`: clear the sink list, drop the callback, and (when the
registry pointer is non-NULL) rebuild the builtin registry.  Result:
`none` on undefined behavior, otherwise the new state, the closed handles,
and any stderr diagnostics from a failed registry allocation. -/
def LOG_reset (allocOk : Bool) (s : State) : Option (State × List Handle × List String) :=
  match resetSlots s.fplist with
  | none => none
  | some p =>
    let s1 : State := { s with fplist := p.1, pfxCallback := none }
    match s1.loglevels with
    | none => some (s1, p.2, [])
    | some _ =>
      if allocOk then
        some ({ s1 with loglevels := some builtinLevels, numlevels := 5 }, p.2, [])
      else
        some ({ s1 with loglevels := none, numlevels := 5 }, p.2, ["LOG_reset: malloc"])

/-- The slot-placement loop of `LOG_teefile`: first empty slot wins,
otherwise a new node is appended at the tail (`allocOk` = that `malloc`).
The `Bool` result is `false` exactly on the `malloc` failure path. -/
def placeSink (allocOk : Bool) (h : Handle) (lvl : Int) : List Slot → List Slot × Bool
  | [] => ([], true)
  | sl :: rest =>
    match sl.fp with
    | none => (⟨some h, lvl⟩ :: rest, true)
    | some _ =>
      match rest with
      | [] => if allocOk then ([sl, ⟨some h, lvl⟩], true) else ([sl], false)
      | r :: rs =>
        let p := placeSink allocOk h lvl (r :: rs)
        (sl :: p.1, p.2)

/-- `LOG_teefile(file, level)`.  A NULL file is a no-op.  The
`fseek(SEEK_END)`/`fcntl(FD_CLOEXEC)` calls on non-standard handles are
stream-positioning side effects assumed to succeed (their failures only
emit `PLOGW` warnings).  On node-allocation failure an `LOGE` diagnostic
is emitted through the library itself (`logAllocOk` feeds that inner
`LOG` call's allocations). -/
def LOG_teefile (allocOk logAllocOk : Bool) (file : Option Handle) (lvl : Int)
    (s : State) : State × LogOut :=
  match file with
  | none => (s, LogOut.empty)
  | some h =>
    let p := placeSink allocOk h lvl s.fplist
    let s1 : State := { s with fplist := p.1 }
    if p.2 then (s1, LogOut.empty)
    else LOG logAllocOk 2 "LOG_teefile: malloc: .\n" s1

/-- The path argument of `LOG_teepath`, with the outcome of the
`fopen(path, "a")` the collaborator would perform. -/
inductive PathArg where
  | nullPath : PathArg
  | dashPath : PathArg
  | filePath : Option Nat → PathArg

/-- `LOG_teepath(path, level)`: NULL maps to stderr, `"-"` to stdout, any
other path is opened for append (on failure, `fp` is NULL and an `LOGW`
diagnostic is emitted before the no-op `LOG_teefile(NULL, ...)`). -/
def LOG_teepath (allocOk logAllocOk : Bool) (p : PathArg) (lvl : Int)
    (s : State) : State × LogOut :=
  match p with
  | .nullPath => LOG_teefile allocOk logAllocOk (some .stderrH) lvl s
  | .dashPath => LOG_teefile allocOk logAllocOk (some .stdoutH) lvl s
  | .filePath (some id) => LOG_teefile allocOk logAllocOk (some (.fileH id)) lvl s
  | .filePath none =>
    let r := LOG logAllocOk 1 "LOG_teepath: cannot open path for logging\n" s
    let r2 := LOG_teefile allocOk logAllocOk none lvl r.1
    (r2.1, seqOut r.2 r2.2)

/-- `LOG_addlevel(level, prefix)`.  An absent or empty prefix is rejected
with an `LOGW` diagnostic.  Otherwise the registry is grown by
`realloc(_loglevels, sizeof * ++_numlevels)` (`reallocOk` = its outcome);
on failure the pointer is NULL, a `PLOGE` diagnostic goes through the
library (re-seeding the registry on the way), and `_numlevels` is zeroed
afterwards. -/
def LOG_addlevel (reallocOk logAllocOk : Bool) (lvl : Int) (pfxArg : Option String)
    (s : State) : State × LogOut :=
  match pfxArg with
  | none => LOG logAllocOk 1 "LOG_addlevel: invalid prefix.\n" s
  | some p =>
    if p = "" then LOG logAllocOk 1 "LOG_addlevel: invalid prefix.\n" s
    else
      if reallocOk then
        let entries := (s.loglevels.getD []).take s.numlevels
        ({ s with loglevels := some (entries ++ [⟨lvl, p⟩]),
                  numlevels := s.numlevels + 1 }, LogOut.empty)
      else
        let s1 : State := { s with loglevels := none, numlevels := s.numlevels + 1 }
        let r := LOG logAllocOk 2 "LOG_addlevel: realloc\n" s1
        ({ r.1 with numlevels := 0 }, r.2)

/-- `LOG_prefixcallback(cback)`: `_prefix_callback = cback ? cback :
_prefix_callback` — passing NULL keeps the previous callback. -/
def LOG_pfxcallback (cb : Option (Nat → String)) (s : State) : State :=
  match cb with
  | some f => { s with pfxCallback := some f }
  | none => s

/-- The last registry entry whose priority equals the query. -/
def lastMatch (lvl : Int) (l : List LogLevel) : Option LogLevel :=
  (l.filter fun e => e.level = lvl).getLast?

/-- Every slot of the list is empty (no active sink at all). -/
def allEmptyB (l : List Slot) : Bool := l.all fun sl => sl.fp.isNone

/-- The occupied slots form a contiguous segment at the front: wherever an
empty slot appears, everything after it is empty too. -/
def contiguousB : List Slot → Bool
  | [] => true
  | sl :: rest => (!sl.fp.isNone || allEmptyB rest) && contiguousB rest

/-- The states the library's process-wide data can be in after any sequence
of public operations starting from program start.  The `reset` step only
fires when `LOG_reset` completes (its result is `some _`, i.e. it did not
run into undefined behavior). -/
inductive Reachable : State → Prop where
  | init : Reachable initState
  | log (s : State) (a : Bool) (lvl : Int) (msg : String) :
      Reachable s → Reachable (LOG a lvl msg s).1
  | teefile (s : State) (a b : Bool) (f : Option Handle) (lvl : Int) :
      Reachable s → Reachable (LOG_teefile a b f lvl s).1
  | teepath (s : State) (a b : Bool) (p : PathArg) (lvl : Int) :
      Reachable s → Reachable (LOG_teepath a b p lvl s).1
  | reset (s : State) (a : Bool) (s' : State) (r : List Handle × List String) :
      Reachable s → LOG_reset a s = some (s', r) → Reachable s'
  | addlevel (s : State) (a b : Bool) (lvl : Int) (p : Option String) :
      Reachable s → Reachable (LOG_addlevel a b lvl p s).1
  | setcb (s : State) (cb : Option (Nat → String)) :
      Reachable s → Reachable (LOG_pfxcallback cb s)

/-! ### Concrete states used by witnesses and counterexamples -/

/-- A reachable state with one stderr sink at threshold 0, the registry
initialized to the builtins, and the line buffer allocated (reached by one
`LOG_teefile` and one `LOG` call that no sink accepts). -/
def sW : State :=
  (LOG true (-5) "boot" ((LOG_teefile true true (some .stderrH) 0 initState).1)).1

/-- A reachable state with two sinks (stderr then stdout, threshold 0 each),
an initialized registry, and a line-prefix callback installed. -/
def s2W : State :=
  LOG_pfxcallback (some fun _ => "T: ")
    ((LOG true (-5) "boot"
      ((LOG_teefile true true (some .stdoutH) 0
        ((LOG_teefile true true (some .stderrH) 0 initState).1)).1)).1)

/-- `sW` after a successful `LOG_addlevel(5, "(XX): ")`: six registry
entries. -/
def s8W : State := (LOG_addlevel true true 5 (some "(XX): ") sW).1

/-- The state `LOG_reset` produces from `sW`. -/
def sWreset : State :=
  { fplist := [⟨none, 0⟩]
    loglevels := some builtinLevels
    numlevels := 5
    pfxCallback := none
    logline := true
    cleanupRegistered := true }

/-! ### Lemmas about the sink loop -/

theorem dispatch_idx_ge (cb : Option (Nat → String)) (lp line : String) (lvl : Int) :
    ∀ (l : List Slot) (i0 n : Nat), ∀ w ∈ (dispatch cb lp line lvl l i0 n).1, i0 ≤ w.idx := by
  intro l
  induction l with
  | nil => intro i0 n w hw; simp [dispatch] at hw
  | cons sl rest ih =>
    obtain ⟨fp, slvl⟩ := sl
    cases fp with
    | none =>
      intro i0 n w hw
      simp only [dispatch] at hw
      exact Nat.le_of_succ_le (ih (i0 + 1) n w hw)
    | some h =>
      intro i0 n w hw
      simp only [dispatch] at hw
      by_cases hlt : lvl < slvl
      · rw [if_pos hlt] at hw
        exact Nat.le_of_succ_le (ih (i0 + 1) n w hw)
      · rw [if_neg hlt] at hw
        rcases List.mem_cons.mp hw with hw | hw
        · subst hw; exact Nat.le_refl i0
        · exact Nat.le_of_succ_le (ih (i0 + 1) (cbBump cb n) w hw)

theorem dispatch_mem_iff (cb : Option (Nat → String)) (lp line : String) (lvl : Int) :
    ∀ (l : List Slot) (i0 n i : Nat) (hi : i < l.length),
      (∃ w ∈ (dispatch cb lp line lvl l i0 n).1, w.idx = i0 + i) ↔
        ((l.get ⟨i, hi⟩).fp ≠ none ∧ (l.get ⟨i, hi⟩).level ≤ lvl) := by
  intro l
  induction l with
  | nil => intro i0 n i hi; simp at hi
  | cons sl rest ih =>
    intro i0 n i hi
    obtain ⟨fp, slvl⟩ := sl
    cases fp with
    | none =>
      simp only [dispatch]
      cases i with
      | zero =>
        simp only [List.get]
        constructor
        · rintro ⟨w, hw, hidx⟩
          have := dispatch_idx_ge cb lp line lvl rest (i0 + 1) n w hw
          omega
        · rintro ⟨hfp, -⟩; exact absurd rfl hfp
      | succ j =>
        have hj : j < rest.length := by simpa using hi
        have heq : i0 + (j + 1) = (i0 + 1) + j := by omega
        rw [heq]
        exact ih (i0 + 1) n j hj
    | some h =>
      simp only [dispatch]
      by_cases hlt : lvl < slvl
      · rw [if_pos hlt]
        cases i with
        | zero =>
          simp only [List.get]
          constructor
          · rintro ⟨w, hw, hidx⟩
            have := dispatch_idx_ge cb lp line lvl rest (i0 + 1) n w hw
            omega
          · rintro ⟨-, hle⟩; omega
        | succ j =>
          have hj : j < rest.length := by simpa using hi
          have heq : i0 + (j + 1) = (i0 + 1) + j := by omega
          rw [heq]
          exact ih (i0 + 1) n j hj
      · rw [if_neg hlt]
        cases i with
        | zero =>
          constructor
          · intro _
            refine ⟨Option.some_ne_none h, ?_⟩
            show slvl ≤ lvl
            omega
          · intro _
            refine ⟨⟨i0, h, cbString cb n ++ lp ++ line⟩, List.mem_cons_self _ _, ?_⟩
            show i0 = i0 + 0
            omega
        | succ j =>
          have hj : j < rest.length := by simpa using hi
          have heq : i0 + (j + 1) = (i0 + 1) + j := by omega
          constructor
          · rintro ⟨w, hw, hidx⟩
            rcases List.mem_cons.mp hw with hw | hw
            · exfalso
              have hx : i0 = i0 + (j + 1) := by rw [hw] at hidx; exact hidx
              omega
            · have hex : ∃ w ∈ (dispatch cb lp line lvl rest (i0 + 1) (cbBump cb n)).1,
                  w.idx = (i0 + 1) + j := ⟨w, hw, by omega⟩
              exact ((ih (i0 + 1) (cbBump cb n) j hj).mp hex)
          · intro hcond
            obtain ⟨w, hw, hidx⟩ := (ih (i0 + 1) (cbBump cb n) j hj).mpr hcond
            exact ⟨w, List.mem_cons_of_mem _ hw, by omega⟩

theorem dispatch_lines (cb : Option (Nat → String)) (lp line : String) (lvl : Int) :
    ∀ (l : List Slot) (i0 n : Nat),
      (dispatch cb lp line lvl l i0 n).1.map Write.line =
        (List.range (countElig lvl l)).map fun k => cbString cb (n + k) ++ lp ++ line := by
  intro l
  induction l with
  | nil => intro i0 n; simp [dispatch, countElig]
  | cons sl rest ih =>
    intro i0 n
    obtain ⟨fp, slvl⟩ := sl
    cases fp with
    | none => simpa only [dispatch, countElig] using ih (i0 + 1) n
    | some h =>
      simp only [dispatch, countElig]
      by_cases hlt : lvl < slvl
      · rw [if_pos hlt, if_pos hlt]
        exact ih (i0 + 1) n
      · rw [if_neg hlt, if_neg hlt]
        rw [List.range_succ_eq_map, List.map_cons, List.map_cons, List.map_map]
        refine congrArg₂ List.cons (by rw [Nat.add_zero]) ?_
        rw [ih (i0 + 1) (cbBump cb n)]
        refine List.map_congr_left ?_
        intro k _
        cases cb with
        | none => rfl
        | some f =>
          show f (n + 1 + k) ++ lp ++ line = f (n + (k + 1)) ++ lp ++ line
          rw [show n + 1 + k = n + (k + 1) by omega]

theorem dispatch_cnt_none (lp line : String) (lvl : Int) :
    ∀ (l : List Slot) (i0 n : Nat), (dispatch none lp line lvl l i0 n).2 = n := by
  intro l
  induction l with
  | nil => intro i0 n; rfl
  | cons sl rest ih =>
    intro i0 n
    obtain ⟨fp, slvl⟩ := sl
    cases fp with
    | none => exact ih (i0 + 1) n
    | some h =>
      simp only [dispatch]
      by_cases hlt : lvl < slvl
      · rw [if_pos hlt]; exact ih (i0 + 1) n
      · rw [if_neg hlt]; exact ih (i0 + 1) n

theorem dispatch_cnt_some (f : Nat → String) (lp line : String) (lvl : Int) :
    ∀ (l : List Slot) (i0 n : Nat),
      (dispatch (some f) lp line lvl l i0 n).2 = n + countElig lvl l := by
  intro l
  induction l with
  | nil => intro i0 n; rfl
  | cons sl rest ih =>
    intro i0 n
    obtain ⟨fp, slvl⟩ := sl
    cases fp with
    | none => simpa only [dispatch, countElig] using ih (i0 + 1) n
    | some h =>
      simp only [dispatch, countElig]
      by_cases hlt : lvl < slvl
      · rw [if_pos hlt, if_pos hlt]; exact ih (i0 + 1) n
      · rw [if_neg hlt, if_neg hlt]
        rw [ih (i0 + 1) (cbBump (some f) n)]
        show n + 1 + countElig lvl rest = n + (countElig lvl rest + 1)
        omega

/-! ### Lemmas about `LOG` itself -/

theorem LOG_of_some (a : Bool) (lvl : Int) (msg : String) (s : State)
    (l : List LogLevel) (hl : s.loglevels = some l) :
    LOG a lvl msg s = LOGbody a lvl msg s := by
  unfold LOG
  rw [hl]

theorem LOG_of_none (lvl : Int) (msg : String) (s : State) (hl : s.loglevels = none) :
    LOG true lvl msg s =
      LOGbody true lvl msg
        { s with cleanupRegistered := true, loglevels := some builtinLevels, numlevels := 5 } := by
  unfold LOG
  rw [hl]
  rfl

theorem LOGbody_run (lvl : Int) (msg : String) (s : State) (hhead : headFp s ≠ none) :
    LOGbody true lvl msg s =
      ({ s with logline := true },
       ⟨(dispatch s.pfxCallback (renderPfx (lookupLevel s lvl)) (truncMsg msg) lvl s.fplist 0 0).1,
        [], true,
        (dispatch s.pfxCallback (renderPfx (lookupLevel s lvl)) (truncMsg msg) lvl
          s.fplist 0 0).2⟩) := by
  unfold LOGbody
  rw [if_neg (by simp : ¬((!s.logline && !true) = true))]
  have h2 : ¬(headFp { s with logline := true } = none) := hhead
  rw [if_neg h2]
  rfl

theorem LOGbody_out_noSinks (a : Bool) (lvl : Int) (msg : String) (s : State)
    (hhead : headFp s = none) :
    (LOGbody a lvl msg s).2.writes = [] ∧ (LOGbody a lvl msg s).2.formatted = false ∧
      (LOGbody a lvl msg s).2.cbCalls = 0 := by
  unfold LOGbody
  by_cases hc : (!s.logline && !a) = true
  · rw [if_pos hc]; exact ⟨rfl, rfl, rfl⟩
  · rw [if_neg hc]
    have h2 : headFp { s with logline := true } = none := hhead
    rw [if_pos h2]
    exact ⟨rfl, rfl, rfl⟩

theorem LOGbody_fplist (a : Bool) (lvl : Int) (msg : String) (s : State) :
    (LOGbody a lvl msg s).1.fplist = s.fplist := by
  unfold LOGbody
  by_cases hc : (!s.logline && !a) = true
  · rw [if_pos hc]
  · rw [if_neg hc]
    by_cases h2 : headFp { s with logline := true } = none
    · rw [if_pos h2]
    · rw [if_neg h2]

theorem LOG_fplist (a : Bool) (lvl : Int) (msg : String) (s : State) :
    (LOG a lvl msg s).1.fplist = s.fplist := by
  unfold LOG
  cases hl : s.loglevels with
  | some l => exact LOGbody_fplist a lvl msg s
  | none =>
    by_cases ha : a = true
    · subst ha
      simp only [if_pos rfl]
      exact LOGbody_fplist true lvl msg _
    · have ha' : a = false := by revert ha; cases a <;> simp
      subst ha'
      rfl

/-! ### The level-lookup loop is a last-match scan -/

theorem scanLast_eq_lastMatch (lvl : Int) :
    ∀ (l : List LogLevel) (acc : Option LogLevel),
      scanLast lvl l acc = (lastMatch lvl l).elim acc some := by
  intro l
  induction l with
  | nil => intro acc; rfl
  | cons e rest ih =>
    intro acc
    by_cases pe : e.level = lvl
    · rw [show scanLast lvl (e :: rest) acc = scanLast lvl rest (some e) by
        simp [scanLast, pe]]
      rw [ih (some e)]
      simp only [lastMatch]
      rw [List.filter_cons, if_pos (by simp [pe])]
      cases hx : List.filter (fun e => decide (e.level = lvl)) rest with
      | nil => simp
      | cons y ys =>
        rw [List.getLast?_cons_cons, List.getLast?_eq_getLast (y :: ys) (by simp)]
        simp
    · rw [show scanLast lvl (e :: rest) acc = scanLast lvl rest acc by
        simp [scanLast, pe]]
      rw [ih acc]
      simp only [lastMatch]
      rw [List.filter_cons, if_neg (by simp [pe])]

theorem lookupLevel_eq_lastMatch (s : State) (l : List LogLevel) (p : Int)
    (hl : s.loglevels = some l) (hn : s.numlevels = l.length) :
    lookupLevel s p = lastMatch p l := by
  unfold lookupLevel
  rw [hl, hn]
  show scanLast p (List.take l.length l) none = lastMatch p l
  rw [List.take_length, scanLast_eq_lastMatch]
  cases lastMatch p l <;> rfl

/-! ### The sink list: slot placement, reset, contiguity -/

theorem allEmptyB_contiguousB : ∀ l : List Slot, allEmptyB l = true → contiguousB l = true := by
  intro l
  induction l with
  | nil => intro _; rfl
  | cons sl rest ih =>
    intro h
    simp only [allEmptyB, List.all_cons, Bool.and_eq_true] at h
    simp only [contiguousB, Bool.and_eq_true, Bool.or_eq_true]
    exact ⟨Or.inr h.2, ih h.2⟩

theorem placeSink_ne_nil (a : Bool) (h : Handle) (lvl : Int) :
    ∀ l : List Slot, l ≠ [] → (placeSink a h lvl l).1 ≠ [] := by
  intro l hne
  cases l with
  | nil => exact absurd rfl hne
  | cons sl rest =>
    obtain ⟨fp, slvl⟩ := sl
    cases fp with
    | none => simp [placeSink]
    | some h0 =>
      cases rest with
      | nil =>
        by_cases ha : a = true
        · subst ha; simp [placeSink]
        · have ha' : a = false := by revert ha; cases a <;> simp
          subst ha'; simp [placeSink]
      | cons r rs => simp [placeSink]

theorem placeSink_contig (a : Bool) (h : Handle) (lvl : Int) :
    ∀ l : List Slot, contiguousB l = true → contiguousB (placeSink a h lvl l).1 = true := by
  intro l
  induction l with
  | nil => intro _; rfl
  | cons sl rest ih =>
    intro hc
    obtain ⟨fp, slvl⟩ := sl
    simp only [contiguousB, Bool.and_eq_true, Bool.or_eq_true] at hc
    cases fp with
    | none =>
      have hrest : allEmptyB rest = true := by
        rcases hc.1 with h1 | h1
        · simp at h1
        · exact h1
      simp only [placeSink, contiguousB, Bool.and_eq_true, Bool.or_eq_true]
      exact ⟨Or.inl (by simp), hc.2⟩
    | some h0 =>
      cases rest with
      | nil =>
        by_cases ha : a = true
        · subst ha
          simp [placeSink, contiguousB, allEmptyB]
        · have ha' : a = false := by revert ha; cases a <;> simp
          subst ha'
          simp [placeSink, contiguousB]
      | cons r rs =>
        simp only [placeSink, contiguousB, Bool.and_eq_true, Bool.or_eq_true]
        refine ⟨Or.inl (by simp), ?_⟩
        have := ih hc.2
        simpa [contiguousB] using this

theorem resetSlots_spec :
    ∀ (l sl2 : List Slot) (cs : List Handle),
      resetSlots l = some (sl2, cs) →
        sl2.length = l.length ∧ ∀ x ∈ sl2, x = (⟨none, 0⟩ : Slot) := by
  intro l
  induction l with
  | nil =>
    intro sl2 cs heq
    simp only [resetSlots, Option.some.injEq, Prod.mk.injEq] at heq
    obtain ⟨h1, -⟩ := heq
    subst h1
    exact ⟨rfl, by intro x hx; simp at hx⟩
  | cons sl rest ih =>
    intro sl2 cs heq
    obtain ⟨fp, slvl⟩ := sl
    cases fp with
    | none => simp [resetSlots] at heq
    | some h =>
      cases hr : resetSlots rest with
      | none => rw [resetSlots, hr] at heq; simp at heq
      | some q =>
        rw [resetSlots, hr] at heq
        simp only [Option.some.injEq, Prod.mk.injEq] at heq
        obtain ⟨h1, -⟩ := heq
        obtain ⟨q1, q2⟩ := q
        obtain ⟨hlen, hall⟩ := ih q1 q2 hr
        subst h1
        constructor
        · simp [hlen]
        · intro x hx
          rcases List.mem_cons.mp hx with hx | hx
          · exact hx
          · exact hall x hx

theorem headFp_of_allEmpty (s : State) (h : ∀ sl ∈ s.fplist, sl.fp = none) :
    headFp s = none := by
  unfold headFp
  cases hfp : s.fplist with
  | nil => rfl
  | cons sl rest => exact h sl (by rw [hfp]; exact List.mem_cons_self _ _)

theorem LOG_out_noSinks (a : Bool) (lvl : Int) (msg : String) (s : State)
    (hhead : headFp s = none) :
    (LOG a lvl msg s).2.writes = [] ∧ (LOG a lvl msg s).2.formatted = false ∧
      (LOG a lvl msg s).2.cbCalls = 0 := by
  unfold LOG
  cases hl : s.loglevels with
  | some l => exact LOGbody_out_noSinks a lvl msg s hhead
  | none =>
    by_cases ha : a = true
    · subst ha
      simp only [if_pos rfl]
      exact LOGbody_out_noSinks true lvl msg _ hhead
    · have ha' : a = false := by revert ha; cases a <;> simp
      subst ha'
      exact ⟨rfl, rfl, rfl⟩

/-! ### How each public operation transforms the sink list -/

theorem teefile_fplist (a b : Bool) (f : Option Handle) (lvl : Int) (s : State) :
    (LOG_teefile a b f lvl s).1.fplist =
      match f with
      | none => s.fplist
      | some h => (placeSink a h lvl s.fplist).1 := by
  cases f with
  | none => rfl
  | some h =>
    show (LOG_teefile a b (some h) lvl s).1.fplist = (placeSink a h lvl s.fplist).1
    unfold LOG_teefile
    by_cases hp : (placeSink a h lvl s.fplist).2 = true
    · simp only [hp, if_true]
    · have hp' : (placeSink a h lvl s.fplist).2 = false := by
        revert hp; cases (placeSink a h lvl s.fplist).2 <;> simp
      simp only [hp', Bool.false_eq_true, if_false]
      rw [LOG_fplist]

theorem addlevel_fplist (a b : Bool) (lvl : Int) (p : Option String) (s : State) :
    (LOG_addlevel a b lvl p s).1.fplist = s.fplist := by
  cases p with
  | none => exact LOG_fplist b 1 _ s
  | some str =>
    by_cases hstr : str = ""
    · show (if str = "" then LOG b 1 "LOG_addlevel: invalid prefix.\n" s else _).1.fplist
          = s.fplist
      rw [if_pos hstr]
      exact LOG_fplist b 1 _ s
    · show (if str = "" then LOG b 1 "LOG_addlevel: invalid prefix.\n" s else _).1.fplist
          = s.fplist
      rw [if_neg hstr]
      by_cases ha : a = true
      · subst ha; rfl
      · have ha' : a = false := by revert ha; cases a <;> simp
        subst ha'
        simp only [Bool.false_eq_true, if_false]
        exact LOG_fplist b 2 _ _

theorem pfxcallback_fplist (cb : Option (Nat → String)) (s : State) :
    (LOG_pfxcallback cb s).fplist = s.fplist := by
  cases cb <;> rfl

theorem teepath_fplist (a b : Bool) (p : PathArg) (lvl : Int) (s : State) :
    (LOG_teepath a b p lvl s).1.fplist =
      match p with
      | .nullPath => (placeSink a .stderrH lvl s.fplist).1
      | .dashPath => (placeSink a .stdoutH lvl s.fplist).1
      | .filePath (some id) => (placeSink a (.fileH id) lvl s.fplist).1
      | .filePath none => s.fplist := by
  cases p with
  | nullPath =>
    show (LOG_teefile a b (some .stderrH) lvl s).1.fplist = _
    rw [teefile_fplist]
  | dashPath =>
    show (LOG_teefile a b (some .stdoutH) lvl s).1.fplist = _
    rw [teefile_fplist]
  | filePath o =>
    cases o with
    | some id =>
      show (LOG_teefile a b (some (.fileH id)) lvl s).1.fplist = _
      rw [teefile_fplist]
    | none =>
      show (LOG_teefile a b none lvl
          (LOG b 1 "LOG_teepath: cannot open path for logging\n" s).1).1.fplist = s.fplist
      rw [teefile_fplist]
      exact LOG_fplist b 1 _ s

theorem reset_fplist (a : Bool) (s s' : State) (r : List Handle × List String)
    (h : LOG_reset a s = some (s', r)) :
    ∃ cs, resetSlots s.fplist = some (s'.fplist, cs) := by
  unfold LOG_reset at h
  cases hr : resetSlots s.fplist with
  | none => rw [hr] at h; simp at h
  | some q =>
    rw [hr] at h
    obtain ⟨q1, q2⟩ := q
    refine ⟨q2, ?_⟩
    cases hl : s.loglevels with
    | none =>
      simp only [hl] at h
      have h3 := congrArg (fun x => x.1.fplist) (Option.some.inj h)
      simp only at h3
      rw [h3]
    | some l =>
      simp only [hl] at h
      by_cases ha : a = true
      · subst ha
        simp only [if_true] at h
        have h3 := congrArg (fun x => x.1.fplist) (Option.some.inj h)
        simp only at h3
        rw [h3]
      · have ha' : a = false := by revert ha; cases a <;> simp
        subst ha'
        simp only [Bool.false_eq_true, if_false] at h
        have h3 := congrArg (fun x => x.1.fplist) (Option.some.inj h)
        simp only at h3
        rw [h3]

/-! ### The sink-list invariant over reachable states -/

theorem reachable_fplist_inv (s : State) (h : Reachable s) :
    s.fplist ≠ [] ∧ contiguousB s.fplist = true := by
  induction h with
  | init => exact ⟨by simp [initState], by rfl⟩
  | log s a lvl msg hs ih => rw [LOG_fplist]; exact ih
  | teefile s a b f lvl hs ih =>
    rw [teefile_fplist]
    cases f with
    | none => exact ih
    | some hd => exact ⟨placeSink_ne_nil a hd lvl s.fplist ih.1,
        placeSink_contig a hd lvl s.fplist ih.2⟩
  | teepath s a b p lvl hs ih =>
    rw [teepath_fplist]
    cases p with
    | nullPath =>
      exact ⟨placeSink_ne_nil _ _ _ _ ih.1, placeSink_contig _ _ _ _ ih.2⟩
    | dashPath =>
      exact ⟨placeSink_ne_nil _ _ _ _ ih.1, placeSink_contig _ _ _ _ ih.2⟩
    | filePath o =>
      cases o with
      | some id =>
        exact ⟨placeSink_ne_nil _ _ _ _ ih.1, placeSink_contig _ _ _ _ ih.2⟩
      | none => exact ih
  | reset s a s' r hs heq ih =>
    obtain ⟨cs, hcs⟩ := reset_fplist a s s' r heq
    obtain ⟨hlen, hall⟩ := resetSlots_spec s.fplist s'.fplist cs hcs
    have hne : s'.fplist ≠ [] := by
      intro hnil
      rw [hnil] at hlen
      exact ih.1 (List.length_eq_zero.mp hlen.symm)
    have hempty : allEmptyB s'.fplist = true := by
      simp only [allEmptyB, List.all_eq_true]
      intro x hx
      rw [hall x hx]
      rfl
    exact ⟨hne, allEmptyB_contiguousB _ hempty⟩
  | addlevel s a b lvl p hs ih => rw [addlevel_fplist]; exact ih
  | setcb s cb hs ih => rw [pfxcallback_fplist]; exact ih

/-! ### Further unfolding lemmas -/

theorem LOG_true_writes_ex (lvl : Int) (msg : String) (s : State) (hhead : headFp s ≠ none) :
    ∃ lp, (LOG true lvl msg s).2.writes =
      (dispatch s.pfxCallback lp (truncMsg msg) lvl s.fplist 0 0).1 := by
  cases hl : s.loglevels with
  | some l =>
    rw [LOG_of_some true lvl msg s l hl, LOGbody_run lvl msg s hhead]
    exact ⟨renderPfx (lookupLevel s lvl), rfl⟩
  | none =>
    rw [LOG_of_none lvl msg s hl]
    have hh2 : headFp
        { s with cleanupRegistered := true, loglevels := some builtinLevels, numlevels := 5 }
        ≠ none := hhead
    rw [LOGbody_run _ _ _ hh2]
    refine ⟨renderPfx (lookupLevel
      { s with cleanupRegistered := true, loglevels := some builtinLevels, numlevels := 5 }
      lvl), rfl⟩

theorem LOGbody_true_state (lvl : Int) (msg : String) (s : State) :
    (LOGbody true lvl msg s).1 = { s with logline := true } ∧
      (LOGbody true lvl msg s).2.fallback = [] := by
  unfold LOGbody
  rw [if_neg (by simp : ¬((!s.logline && !true) = true))]
  by_cases h2 : headFp { s with logline := true } = none
  · rw [if_pos h2]; exact ⟨rfl, rfl⟩
  · rw [if_neg h2]; exact ⟨rfl, rfl⟩

theorem addlevel_ok (b : Bool) (s : State) (l : List LogLevel) (lvl : Int) (p : String)
    (hl : s.loglevels = some l) (hn : s.numlevels = l.length) (hp : p ≠ "") :
    (LOG_addlevel true b lvl (some p) s).1 =
      { s with loglevels := some (l ++ [⟨lvl, p⟩]), numlevels := s.numlevels + 1 } := by
  show (if p = "" then LOG b 1 "LOG_addlevel: invalid prefix.\n" s else _).1 = _
  rw [if_neg hp]
  show ({ s with
      loglevels := some ((s.loglevels.getD []).take s.numlevels ++ [⟨lvl, p⟩]),
      numlevels := s.numlevels + 1 } : State) = _
  rw [hl, hn]
  simp [List.take_length]

theorem LOG_lines_of_lookup (s : State) (lvl : Int) (msg : String) (l : List LogLevel)
    (pstr : String) (hl : s.loglevels = some l) (hhead : headFp s ≠ none)
    (hlk : renderPfx (lookupLevel s lvl) = pstr) :
    (LOG true lvl msg s).2.writes.map Write.line =
      (List.range (countElig lvl s.fplist)).map
        fun k => cbString s.pfxCallback k ++ pstr ++ truncMsg msg := by
  rw [LOG_of_some true lvl msg s l hl, LOGbody_run lvl msg s hhead]
  show (dispatch s.pfxCallback (renderPfx (lookupLevel s lvl)) (truncMsg msg) lvl
      s.fplist 0 0).1.map Write.line = _
  rw [dispatch_lines]
  simp only [hlk]
  exact List.map_congr_left fun k _ => by rw [Nat.zero_add]

/-! ### The claims -/

/-- C1: for every configured sink with threshold `T` and every dispatched
message at priority `L` (the head slot being occupied, so dispatch
proceeds), the sink at slot `i` receives the composed line iff its slot is
occupied and `L ≥ T`; the eligibility condition is one-sided, there is no
upper-bound filter. -/
theorem C1_receives_iff (s : State) (lvl : Int) (msg : String) (i : Nat)
    (hhead : headFp s ≠ none) (hi : i < s.fplist.length) :
    (∃ w ∈ (LOG true lvl msg s).2.writes, w.idx = i) ↔
      ((s.fplist.get ⟨i, hi⟩).fp ≠ none ∧ (s.fplist.get ⟨i, hi⟩).level ≤ lvl) := by
  obtain ⟨lp, hw⟩ := LOG_true_writes_ex lvl msg s hhead
  rw [hw]
  simpa using dispatch_mem_iff s.pfxCallback lp (truncMsg msg) lvl s.fplist 0 0 i hi

/-- Witness for C1: in the reachable state `sW` (one stderr sink at
threshold 0), a message at level 0 reaches slot 0. -/
theorem C1_receives_iff_witness :
    headFp sW ≠ none ∧ 0 < sW.fplist.length ∧
      (∃ w ∈ (LOG true 0 "m\n" sW).2.writes, w.idx = 0) :=
  ⟨by decide, by decide,
    (C1_receives_iff sW 0 "m\n" 0 (by decide) (by decide)).mpr (by decide)⟩

/-- C2 counterexample: a direct `LOG` call at the built-in Fatal priority 3
(`LOG` is the public workhorse entry point) delivers the message to the
eligible sink but does NOT terminate the process — termination lives only
in the `LOGF` macro. -/
theorem C2_log_at_fatal_does_not_exit :
    (LOG_call true 3 "fatal\n" sW).out.writes.length = 1 ∧
      (LOG_call true 3 "fatal\n" sW).exited = none := by
  exact ⟨by decide, rfl⟩

/-- C2 (amended): a fatal log statement made through the `LOGF` wrapper
first delivers the message exactly as `LOG(3, ...)` does — slot `i`
receives it iff occupied with threshold ≤ 3 — and then terminates the
process with the failing status `EXIT_FAILURE ≠ 0`, so no statement after
it executes; a direct `LOG` call at priority 3 does not terminate. -/
theorem C2_logf_dispatch_then_exit (s : State) (msg : String) (i : Nat)
    (hhead : headFp s ≠ none) (hi : i < s.fplist.length) :
    (LOGF_call true msg s).exited = some EXIT_FAILURE ∧ EXIT_FAILURE ≠ 0 ∧
      ((∃ w ∈ (LOGF_call true msg s).out.writes, w.idx = i) ↔
        ((s.fplist.get ⟨i, hi⟩).fp ≠ none ∧ (s.fplist.get ⟨i, hi⟩).level ≤ 3)) := by
  refine ⟨rfl, by decide, ?_⟩
  show (∃ w ∈ (LOG true 3 msg s).2.writes, w.idx = i) ↔ _
  obtain ⟨lp, hw⟩ := LOG_true_writes_ex 3 msg s hhead
  rw [hw]
  simpa using dispatch_mem_iff s.pfxCallback lp (truncMsg msg) 3 s.fplist 0 0 i hi

/-- Witness for the amended C2 at the reachable state `sW`. -/
theorem C2_logf_dispatch_then_exit_witness :
    headFp sW ≠ none ∧ (LOGF_call true "die\n" sW).exited = some EXIT_FAILURE :=
  ⟨by decide, (C2_logf_dispatch_then_exit sW "die\n" 0 (by decide) (by decide)).1⟩

/-- C3 counterexample: in the reachable state `s2W` (two eligible sinks,
callback installed), one dispatch writes to 2 sinks and invokes the
callback twice — not exactly once per dispatch. -/
theorem C3_callback_invoked_per_sink :
    (LOG true 0 "m\n" s2W).2.writes.length = 2 ∧
      (LOG true 0 "m\n" s2W).2.cbCalls = 2 := by
  exact ⟨by decide, by decide⟩

/-- C3 (amended): on a dispatch that proceeds, the prefix callback is
invoked once per eligible sink (zero times when it is not set), and the
line written to the k-th eligible sink is exactly the concatenation of the
k-th callback result (empty when no callback is set), the level prefix,
and the (truncated) formatted message — with no escaping or newline
normalization. -/
theorem C3_line_composition (s : State) (lvl : Int) (msg : String) (l : List LogLevel)
    (hl : s.loglevels = some l) (hhead : headFp s ≠ none) :
    (LOG true lvl msg s).2.cbCalls =
        (match s.pfxCallback with | none => 0 | some _ => countElig lvl s.fplist) ∧
      (LOG true lvl msg s).2.writes.map Write.line =
        (List.range (countElig lvl s.fplist)).map
          fun k => cbString s.pfxCallback k ++ renderPfx (lookupLevel s lvl) ++ truncMsg msg := by
  rw [LOG_of_some true lvl msg s l hl, LOGbody_run lvl msg s hhead]
  constructor
  · show (dispatch s.pfxCallback (renderPfx (lookupLevel s lvl)) (truncMsg msg) lvl
        s.fplist 0 0).2 = _
    cases hcb : s.pfxCallback with
    | none => rw [dispatch_cnt_none]
    | some f => rw [dispatch_cnt_some]; simp
  · show (dispatch s.pfxCallback (renderPfx (lookupLevel s lvl)) (truncMsg msg) lvl
        s.fplist 0 0).1.map Write.line = _
    rw [dispatch_lines]
    refine List.map_congr_left ?_
    intro k _
    rw [Nat.zero_add]

/-- Witness for the amended C3 at the reachable state `s2W`. -/
theorem C3_line_composition_witness :
    s2W.loglevels = some builtinLevels ∧ headFp s2W ≠ none ∧
      (LOG true 0 "m\n" s2W).2.cbCalls =
        (match s2W.pfxCallback with | none => 0 | some _ => countElig 0 s2W.fplist) :=
  ⟨rfl, by decide, (C3_line_composition s2W 0 "m\n" builtinLevels rfl (by decide)).1⟩

/-- C5: a log call made while the sink list has zero active sinks returns
without performing the formatting step (so format-argument side effects do
not occur), writes nothing, and never invokes the callback. -/
theorem C5_no_sinks_no_format (a : Bool) (lvl : Int) (msg : String) (s : State)
    (h : ∀ sl ∈ s.fplist, sl.fp = none) :
    (LOG a lvl msg s).2.formatted = false ∧ (LOG a lvl msg s).2.writes = [] ∧
      (LOG a lvl msg s).2.cbCalls = 0 :=
  have hx := LOG_out_noSinks a lvl msg s (headFp_of_allEmpty s h)
  ⟨hx.2.1, hx.1, hx.2.2⟩

/-- Witness for C5 at the initial state (no sinks configured). -/
theorem C5_no_sinks_no_format_witness :
    (∀ sl ∈ initState.fplist, sl.fp = none) ∧
      (LOG true 0 "side effect\n" initState).2.formatted = false :=
  ⟨by decide, (C5_no_sinks_no_format true 0 "side effect\n" initState (by decide)).1⟩

/-- C7 (code bug): `LOG_reset` takes `fileno(fp->fp)` of every slot without
a NULL check, so it hits undefined behavior on any empty slot: calling it
before any sink was added, or twice in succession, dereferences a NULL
`FILE *`. -/
theorem C7_reset_empty_slot_ub :
    LOG_reset true initState = none ∧
      ((LOG_reset true ((LOG_teefile true true (some .stderrH) 0 initState).1)).bind
          fun r => LOG_reset true r.1) = none :=
  ⟨rfl, rfl⟩

/-- C9 (code bug): the exit-time cleanup exempts the stdin and stderr
descriptors instead of stdout and stderr, so it `fclose`s a registered
stdout sink (while a stderr sink is indeed left untouched and an empty
list is handled safely). -/
theorem C9_cleanup_closes_stdout :
    LOG_cleanup ((LOG_teepath true true PathArg.dashPath 0 initState).1) = [Handle.stdoutH] ∧
      LOG_cleanup ((LOG_teepath true true PathArg.nullPath 0 initState).1) = [] ∧
      LOG_cleanup initState = [] := by
  exact ⟨by decide, by decide, by decide⟩

/-- C10: in every reachable state the sink list is nonempty (the permanent
head node), its occupied slots form a contiguous front segment, and the
dispatcher's head-only emptiness check is equivalent to "zero active
sinks". -/
theorem C10_occupied_contiguous (s : State) (h : Reachable s) :
    s.fplist ≠ [] ∧ contiguousB s.fplist = true ∧
      (headFp s = none ↔ allEmptyB s.fplist = true) := by
  obtain ⟨h1, h2⟩ := reachable_fplist_inv s h
  refine ⟨h1, h2, ?_⟩
  cases hl : s.fplist with
  | nil => exact absurd hl h1
  | cons sl rest =>
    rw [hl] at h2
    simp only [contiguousB, Bool.and_eq_true, Bool.or_eq_true] at h2
    unfold headFp
    rw [hl]
    show sl.fp = none ↔ allEmptyB (sl :: rest) = true
    constructor
    · intro hnone
      simp only [allEmptyB, List.all_cons, Bool.and_eq_true]
      have hrest : allEmptyB rest = true := by
        rcases h2.1 with hx | hx
        · rw [hnone] at hx; simp at hx
        · exact hx
      exact ⟨by rw [hnone]; rfl, hrest⟩
    · intro hall
      simp only [allEmptyB, List.all_cons, Bool.and_eq_true] at hall
      exact Option.isNone_iff_eq_none.mp hall.1

/-- Witness for C10 at the initial state. -/
theorem C10_occupied_contiguous_witness :
    initState.fplist ≠ [] ∧ contiguousB initState.fplist = true ∧
      (headFp initState = none ↔ allEmptyB initState.fplist = true) :=
  C10_occupied_contiguous initState Reachable.init

/-- C4: level lookup is a linear scan over the registry returning the
prefix of the LAST entry whose priority equals the query; when no entry
matches, the rendered level prefix is the empty string; and after
registering the same priority twice, a dispatch at that priority uses the
prefix of the second registration. -/
theorem C4_lookup_last_match :
    (∀ (s : State) (l : List LogLevel) (p : Int),
        s.loglevels = some l → s.numlevels = l.length →
        lookupLevel s p = (l.filter fun e => e.level = p).getLast?) ∧
    (∀ (s : State) (l : List LogLevel) (p : Int) (msg : String),
        s.loglevels = some l → s.numlevels = l.length →
        (∀ e ∈ l, e.level ≠ p) → headFp s ≠ none →
        (LOG true p msg s).2.writes.map Write.line =
          (List.range (countElig p s.fplist)).map
            fun k => cbString s.pfxCallback k ++ "" ++ truncMsg msg) ∧
    (∀ (s s2 : State) (l : List LogLevel) (p : Int) (A B msg : String),
        s.loglevels = some l → s.numlevels = l.length → A ≠ "" → B ≠ "" →
        headFp s ≠ none →
        s2 = (LOG_addlevel true true p (some B)
          ((LOG_addlevel true true p (some A) s).1)).1 →
        lookupLevel s2 p = some ⟨p, B⟩ ∧
        (LOG true p msg s2).2.writes.map Write.line =
          (List.range (countElig p s.fplist)).map
            fun k => cbString s.pfxCallback k ++ B ++ truncMsg msg) := by
  refine ⟨?_, ?_, ?_⟩
  · intro s l p hl hn
    exact lookupLevel_eq_lastMatch s l p hl hn
  · intro s l p msg hl hn hno hhead
    have hlk : renderPfx (lookupLevel s p) = "" := by
      rw [lookupLevel_eq_lastMatch s l p hl hn]
      unfold lastMatch
      rw [List.filter_eq_nil_iff.mpr (by intro e he; simpa using hno e he)]
      rfl
    exact LOG_lines_of_lookup s p msg l "" hl hhead hlk
  · intro s s2 l p A B msg hl hn hA hB hhead hseq
    have e1 := addlevel_ok true s l p A hl hn hA
    have hl1 : (LOG_addlevel true true p (some A) s).1.loglevels = some (l ++ [⟨p, A⟩]) := by
      rw [e1]
    have hn1 : (LOG_addlevel true true p (some A) s).1.numlevels
        = (l ++ [(⟨p, A⟩ : LogLevel)]).length := by
      rw [e1]
      show s.numlevels + 1 = _
      rw [hn]; simp
    have e2 := addlevel_ok true _ (l ++ [⟨p, A⟩]) p B hl1 hn1 hB
    have hl2 : s2.loglevels = some (l ++ [⟨p, A⟩] ++ [⟨p, B⟩]) := by rw [hseq, e2]
    have hn2 : s2.numlevels = (l ++ [(⟨p, A⟩ : LogLevel)] ++ [(⟨p, B⟩ : LogLevel)]).length := by
      rw [hseq, e2]
      show (LOG_addlevel true true p (some A) s).1.numlevels + 1 = _
      rw [hn1]; simp
    have hfp2 : s2.fplist = s.fplist := by rw [hseq, addlevel_fplist, addlevel_fplist]
    have hcb2 : s2.pfxCallback = s.pfxCallback := by rw [hseq, e2, e1]
    have hlast : lastMatch p (l ++ [⟨p, A⟩] ++ [⟨p, B⟩]) = some ⟨p, B⟩ := by
      unfold lastMatch
      rw [List.filter_append]
      rw [show List.filter (fun e => decide (e.level = p)) [(⟨p, B⟩ : LogLevel)]
          = [(⟨p, B⟩ : LogLevel)] by simp]
      exact List.getLast?_concat _
    have hlk2 : lookupLevel s2 p = some ⟨p, B⟩ := by
      rw [lookupLevel_eq_lastMatch s2 _ p hl2 hn2]
      exact hlast
    refine ⟨hlk2, ?_⟩
    have hh2 : headFp s2 ≠ none := by
      intro hcon
      apply hhead
      unfold headFp at hcon ⊢
      rw [hfp2] at hcon
      exact hcon
    have hlines := LOG_lines_of_lookup s2 p msg _ B hl2 hh2 (by rw [hlk2]; rfl)
    rw [hlines]
    simp only [hfp2, hcb2]

/-- Witness for C4: in `sW`, registering priority 9 as "A: " then "B: "
makes lookup at 9 return "B: ". -/
theorem C4_lookup_last_match_witness :
    sW.loglevels = some builtinLevels ∧
      lookupLevel ((LOG_addlevel true true 9 (some "B: ")
        ((LOG_addlevel true true 9 (some "A: ") sW).1)).1) 9 = some ⟨9, "B: "⟩ :=
  ⟨rfl, (C4_lookup_last_match.2.2 sW _ builtinLevels 9 "A: " "B: " "m" rfl rfl
    (by decide) (by decide) (by decide) rfl).1⟩

/-- C6 counterexample: calling `LOG_reset` from a reachable state whose
registry was never initialized (one stderr sink added, no log call yet)
completes but leaves the registry empty (NULL), not the five builtins. -/
theorem C6_reset_skips_uninitialized_registry :
    ((LOG_reset true ((LOG_teefile true true (some .stderrH) 0 initState).1)).map
        fun r => r.1.loglevels) = some none ∧
      (none : Option (List LogLevel)) ≠ some builtinLevels :=
  ⟨rfl, by decide⟩

/-- C6 (amended): after a `LOG_reset` call that completes from a state
whose level registry is initialized (and whose registry allocation
succeeds), every previously added sink is removed — a subsequent log call
writes nothing and skips formatting — the prefix callback is cleared, and
the registry contains exactly the five built-in levels in built-in order;
a reset invoked before the registry was ever initialized instead leaves it
uninitialized (it is seeded lazily by the next log call). -/
theorem C6_reset_restores (s s' : State) (closed : List Handle) (msgs : List String)
    (l : List LogLevel) (hl : s.loglevels = some l)
    (h : LOG_reset true s = some (s', closed, msgs)) :
    (∀ sl ∈ s'.fplist, sl.fp = none ∧ sl.level = 0) ∧
      s'.pfxCallback = none ∧ s'.loglevels = some builtinLevels ∧ s'.numlevels = 5 ∧
      ∀ (a : Bool) (lvl : Int) (msg : String),
        (LOG a lvl msg s').2.writes = [] ∧ (LOG a lvl msg s').2.formatted = false := by
  unfold LOG_reset at h
  cases hr : resetSlots s.fplist with
  | none => rw [hr] at h; simp at h
  | some q =>
    rw [hr] at h
    obtain ⟨q1, q2⟩ := q
    simp only [hl] at h
    rw [if_pos trivial] at h
    have hs' := congrArg (fun x => x.1) (Option.some.inj h)
    simp only at hs'
    obtain ⟨hlen, hall⟩ := resetSlots_spec s.fplist q1 q2 hr
    have hfac : ∀ sl ∈ s'.fplist, sl.fp = none ∧ sl.level = 0 := by
      intro sl hsl
      rw [← hs'] at hsl
      have hx := hall sl hsl
      rw [hx]
      exact ⟨rfl, rfl⟩
    refine ⟨hfac, ?_, ?_, ?_, ?_⟩
    · rw [← hs']
    · rw [← hs']
    · rw [← hs']
    · intro a lvl msg
      have hhead : headFp s' = none := headFp_of_allEmpty s' fun sl hsl => (hfac sl hsl).1
      have hout := LOG_out_noSinks a lvl msg s' hhead
      exact ⟨hout.1, hout.2.1⟩

/-- Witness for the amended C6: resetting `sW` yields exactly `sWreset`,
whose registry is the builtin table. -/
theorem C6_reset_restores_witness :
    sW.loglevels = some builtinLevels ∧
      LOG_reset true sW = some (sWreset, [], []) ∧ sWreset.numlevels = 5 :=
  ⟨rfl, rfl, (C6_reset_restores sW sWreset [] [] builtinLevels rfl rfl).2.2.2.1⟩

/-- C8 counterexample: in the reachable state `s8W` (six registry entries,
one stderr sink), a failing `LOG_addlevel` leaves the entry count at 0 —
not "entries and count unchanged" — and its diagnostic is written through
the configured sink (one write) rather than the stderr fallback (empty). -/
theorem C8_addlevel_fail_not_preserved :
    s8W.numlevels = 6 ∧
      (LOG_addlevel false true 7 (some "(YY): ") s8W).1.numlevels = 0 ∧
      (LOG_addlevel false true 7 (some "(YY): ") s8W).2.fallback = [] ∧
      (LOG_addlevel false true 7 (some "(YY): ") s8W).2.writes.length = 1 :=
  ⟨by decide, by decide, by decide, by decide⟩

/-- C8 (amended): when the registry-growth `realloc` fails, `addLevel`
does NOT leave the registry in its last valid state and does not use the
stderr fallback: the diagnostic is dispatched as an Error-level line
through the configured sinks (re-seeding the builtin table on the way,
because the registry pointer was nulled before the diagnostic log call),
and the entry count is then zeroed, losing all prior entries. -/
theorem C8_addlevel_fail_behavior (s : State) (lvl : Int) (p : String) (hp : p ≠ "") :
    (LOG_addlevel false true lvl (some p) s).1 =
        { s with loglevels := some builtinLevels, numlevels := 0,
                 logline := true, cleanupRegistered := true } ∧
      (LOG_addlevel false true lvl (some p) s).2.fallback = [] ∧
      (headFp s ≠ none →
        (LOG_addlevel false true lvl (some p) s).2.writes.map Write.line =
          (List.range (countElig 2 s.fplist)).map
            fun k => cbString s.pfxCallback k ++ "(EE): " ++ truncMsg "LOG_addlevel: realloc\n") := by
  have hred : LOG_addlevel false true lvl (some p) s =
      ({ (LOG true 2 "LOG_addlevel: realloc\n"
            { s with loglevels := none, numlevels := s.numlevels + 1 }).1 with numlevels := 0 },
       (LOG true 2 "LOG_addlevel: realloc\n"
            { s with loglevels := none, numlevels := s.numlevels + 1 }).2) := by
    show (if p = "" then LOG true 1 "LOG_addlevel: invalid prefix.\n" s else _) = _
    rw [if_neg hp]
    rfl
  have hlog : LOG true 2 "LOG_addlevel: realloc\n"
        { s with loglevels := none, numlevels := s.numlevels + 1 } =
      LOG true 2 "LOG_addlevel: realloc\n"
        { s with cleanupRegistered := true, loglevels := some builtinLevels, numlevels := 5 } := by
    rw [LOG_of_none 2 _ _ rfl,
      LOG_of_some true 2 _
        { s with cleanupRegistered := true, loglevels := some builtinLevels, numlevels := 5 }
        builtinLevels rfl]
  obtain ⟨hst, hfb⟩ := LOGbody_true_state 2 "LOG_addlevel: realloc\n"
    { s with cleanupRegistered := true, loglevels := some builtinLevels, numlevels := 5 }
  refine ⟨?_, ?_, ?_⟩
  · rw [hred]
    show ({ (LOG true 2 "LOG_addlevel: realloc\n"
        { s with loglevels := none, numlevels := s.numlevels + 1 }).1 with numlevels := 0 }
        : State) = _
    rw [hlog, LOG_of_some true 2 _ _ builtinLevels rfl, hst]
  · rw [hred]
    show (LOG true 2 "LOG_addlevel: realloc\n"
        { s with loglevels := none, numlevels := s.numlevels + 1 }).2.fallback = []
    rw [hlog, LOG_of_some true 2 _ _ builtinLevels rfl]
    exact hfb
  · intro hhead
    rw [hred]
    show (LOG true 2 "LOG_addlevel: realloc\n"
        { s with loglevels := none, numlevels := s.numlevels + 1 }).2.writes.map Write.line = _
    rw [hlog]
    have hh2 : headFp
        { s with cleanupRegistered := true, loglevels := some builtinLevels, numlevels := 5 }
        ≠ none := hhead
    exact LOG_lines_of_lookup _ 2 _ builtinLevels "(EE): " rfl hh2 rfl

/-- Witness for the amended C8 at the reachable state `s8W`. -/
theorem C8_addlevel_fail_behavior_witness :
    ("(YY): " : String) ≠ "" ∧
      (LOG_addlevel false true 7 (some "(YY): ") s8W).2.fallback = [] :=
  ⟨by decide, (C8_addlevel_fail_behavior s8W 7 "(YY): " (by decide)).2.1⟩

end Logtee
